import Mathlib

/-!
Shallow embedding of the optcarrot-web cross-context synchronization layer:
the presentation-side audio scheduler (`NESAudio` in `src/index.ts`), the
startup option derivation (`deriveOptions`), the page bootstrap branching
(service-worker registration handler), the worker startup progress protocol
(`App.init` and the `Comlink.expose` wrapper in `src/optcarrot.worker.ts`),
and the shared key-event channel.  Wall-clock times and audio sample values
are modelled as rationals; the scheduler state is the `scheduledTime` field.
-/

/-- Audio sample rate fixed by the `NESAudio` constructor
(`new AudioContext({ sampleRate: 11050 })`, `src/index.ts` line 33). -/
def audioSampleRate : ℚ := 11050

/-- State of the presentation-side audio scheduler: the mutable
`scheduledTime` field of `class NESAudio` (`src/index.ts` lines 28-35). -/
structure NESAudio where
  scheduledTime : ℚ
deriving DecidableEq

/-- Freshly constructed scheduler: the constructor sets `scheduledTime = 0`. -/
def NESAudio.new : NESAudio := ⟨0⟩

/-- Duration of a mono audio buffer of `len` samples at the context sample
rate, as reported by `buffer.duration` (`len / sampleRate` seconds). -/
def bufferDuration (len : ℕ) : ℚ := (len : ℚ) / audioSampleRate

/-- Divisor `2 << 15` appearing in `bufferData[i] = input[i] / (2 << 15)`
(`src/index.ts` line 47). -/
def sampleDivisor : ℤ := 2 <<< 15

/-- Conversion of one signed 16-bit input sample to a floating-point
playback sample, from the loop body `input[i] / (2 << 15)`. -/
def convSample (s : ℤ) : ℚ := (s : ℚ) / (sampleDivisor : ℚ)

/-- Observable outcome of one `NESAudio.push` call: the scheduler state
afterwards, the time handed to `bufferSrc.start`, whether the underrun
diagnostic (`console.warn`) fired, and the converted sample data. -/
structure PushResult where
  state : NESAudio
  startTime : ℚ
  underrun : Bool
  bufferData : List ℚ
deriving DecidableEq

/-- Embedding of `NESAudio.push` (`src/index.ts` lines 37-62): convert the
samples, then either schedule at `scheduledTime` and advance it by the
buffer duration (when `currentTime < scheduledTime`), or warn about an
underrun, start at `currentTime`, and reset the clock to
`currentTime + duration`. -/
def NESAudio.push (st : NESAudio) (currentTime : ℚ) (input : List ℤ) : PushResult :=
  let bufferData := input.map convSample
  let duration := bufferDuration input.length
  if currentTime < st.scheduledTime then
    { state := ⟨st.scheduledTime + duration⟩
      startTime := st.scheduledTime
      underrun := false
      bufferData := bufferData }
  else
    { state := ⟨currentTime + duration⟩
      startTime := currentTime
      underrun := true
      bufferData := bufferData }

/-- Folding `NESAudio.push` over a list of `(currentTime, samples)` pairs:
the scheduler state threads through successive calls. -/
def NESAudio.pushSeq (st : NESAudio) : List (ℚ × List ℤ) → NESAudio × List PushResult
  | [] => (st, [])
  | (now, input) :: rest =>
    let r := NESAudio.push st now input
    let t := NESAudio.pushSeq r.state rest
    (t.1, r :: t.2)

/-- Deliveries of `count` silent segments of `n` samples each, arriving at
wall-clock times `j * bufferDuration n` for `j = start, ..., start+count-1`:
the exact steady cadence of the spec, one segment every `d` seconds. -/
def cadenceDeliveries (n start count : ℕ) : List (ℚ × List ℤ) :=
  (List.range' start count).map
    (fun (j : ℕ) => ((j : ℚ) * bufferDuration n, List.replicate n 0))

/-- C1: the push operation is the two-branch rule on `now` and `scheduled`:
in the steady case (`now < scheduled`) the segment starts exactly at
`scheduled`, the clock advances by exactly the segment duration, and no
underrun is signalled; otherwise the segment starts immediately at `now`,
the clock is reset to `now + duration`, and the underrun signal fires. -/
theorem C1_push_two_branch (st : NESAudio) (now : ℚ) (input : List ℤ) :
    (now < st.scheduledTime →
      (st.push now input).startTime = st.scheduledTime ∧
      (st.push now input).state.scheduledTime = st.scheduledTime + bufferDuration input.length ∧
      (st.push now input).underrun = false) ∧
    (st.scheduledTime ≤ now →
      (st.push now input).startTime = now ∧
      (st.push now input).state.scheduledTime = now + bufferDuration input.length ∧
      (st.push now input).underrun = true) := by
  constructor
  · intro h
    simp [NESAudio.push, h]
  · intro h
    simp [NESAudio.push, not_lt.mpr h]

/-- Concrete instantiation of the two branches of `C1_push_two_branch`:
a push at time 0 against a clock at 1 starts at 1, and a push at time 0
against a clock at 0 signals an underrun. -/
theorem C1_push_two_branch_witness :
    ((0 : ℚ) < (1 : ℚ) ∧ ((NESAudio.mk 1).push 0 []).startTime = 1) ∧
    ((0 : ℚ) ≤ (0 : ℚ) ∧ ((NESAudio.mk 0).push 0 []).underrun = true) :=
  ⟨⟨by norm_num, ((C1_push_two_branch ⟨1⟩ 0 []).1 (by norm_num)).1⟩,
   ⟨le_refl 0, ((C1_push_two_branch ⟨0⟩ 0 []).2 (le_refl 0)).2.2⟩⟩

/-- C10: the divisor in the sample-conversion loop is `2 << 15 = 65536`
(not `32768`), the pushed buffer data is exactly the converted input, and
every converted in-range signed 16-bit sample lies in `[-1/2, 1/2)`. -/
theorem C10_sample_range (st : NESAudio) (now : ℚ) (input : List ℤ) (s : ℤ)
    (hlo : -32768 ≤ s) (hhi : s ≤ 32767) :
    sampleDivisor = 65536 ∧
    (st.push now input).bufferData = input.map convSample ∧
    convSample s = (s : ℚ) / 65536 ∧
    -(1 / 2 : ℚ) ≤ convSample s ∧ convSample s < 1 / 2 := by
  have hd : sampleDivisor = 65536 := by decide
  have hcv : convSample s = (s : ℚ) / 65536 := by
    simp only [convSample, hd]
    norm_num
  refine ⟨hd, ?_, hcv, ?_, ?_⟩
  · unfold NESAudio.push
    split <;> rfl
  · rw [hcv, le_div_iff₀ (by norm_num : (0 : ℚ) < 65536)]
    have : (-32768 : ℚ) ≤ (s : ℚ) := by exact_mod_cast hlo
    linarith
  · rw [hcv, div_lt_iff₀ (by norm_num : (0 : ℚ) < 65536)]
    have : (s : ℚ) ≤ 32767 := by exact_mod_cast hhi
    linarith

/-- Concrete instantiation of `C10_sample_range` at the most negative
sample, whose converted value is exactly `-1/2`. -/
theorem C10_sample_range_witness :
    (-32768 : ℤ) ≤ -32768 ∧ (-32768 : ℤ) ≤ 32767 ∧
      -(1 / 2 : ℚ) ≤ convSample (-32768) :=
  ⟨by decide, by decide,
   (C10_sample_range ⟨0⟩ 0 [] (-32768) (by decide) (by decide)).2.2.2.1⟩

lemma push_of_lt (st : NESAudio) (now : ℚ) (input : List ℤ)
    (h : now < st.scheduledTime) :
    st.push now input =
      { state := ⟨st.scheduledTime + bufferDuration input.length⟩
        startTime := st.scheduledTime
        underrun := false
        bufferData := input.map convSample } := by
  simp [NESAudio.push, h]

lemma push_of_ge (st : NESAudio) (now : ℚ) (input : List ℤ)
    (h : st.scheduledTime ≤ now) :
    st.push now input =
      { state := ⟨now + bufferDuration input.length⟩
        startTime := now
        underrun := true
        bufferData := input.map convSample } := by
  simp [NESAudio.push, not_lt.mpr h]

lemma bufferDuration_nonneg (len : ℕ) : 0 ≤ bufferDuration len := by
  unfold bufferDuration audioSampleRate
  positivity

lemma push_scheduled_mono (st : NESAudio) (now : ℚ) (input : List ℤ) :
    st.scheduledTime ≤ (st.push now input).state.scheduledTime := by
  rcases lt_or_le now st.scheduledTime with h | h
  · rw [push_of_lt st now input h]
    exact le_add_of_nonneg_right (bufferDuration_nonneg _)
  · rw [push_of_ge st now input h]
    exact le_trans h (le_add_of_nonneg_right (bufferDuration_nonneg _))

/-- C9: across any sequence of pushes with nonempty (positive-duration)
segments, the successive values of the scheduler clock `scheduledTime` are
monotonically non-decreasing, including across underrun-recovery resets. -/
theorem C9_clock_monotonic (st : NESAudio) (l : List (ℚ × List ℤ))
    (hpos : ∀ p ∈ l, p.2 ≠ []) :
    List.Chain' (· ≤ ·)
      (st.scheduledTime :: ((st.pushSeq l).2.map fun r => r.state.scheduledTime)) := by
  induction l generalizing st with
  | nil => simp [NESAudio.pushSeq]
  | cons p rest ih =>
    obtain ⟨now, input⟩ := p
    simp only [NESAudio.pushSeq, List.map_cons]
    exact List.chain'_cons.mpr
      ⟨push_scheduled_mono st now input,
       ih (NESAudio.push st now input).state
         (fun q hq => hpos q (List.mem_cons_of_mem _ hq))⟩

/-- Concrete instantiation of `C9_clock_monotonic` on a single one-sample
push from a fresh scheduler. -/
theorem C9_clock_monotonic_witness :
    (∀ p ∈ [((0 : ℚ), [(5 : ℤ)])], p.2 ≠ []) ∧
    List.Chain' (· ≤ ·)
      ((NESAudio.new).scheduledTime ::
        (((NESAudio.new).pushSeq [((0 : ℚ), [(5 : ℤ)])]).2.map
          fun r => r.state.scheduledTime)) :=
  ⟨by decide, C9_clock_monotonic NESAudio.new [((0 : ℚ), [(5 : ℤ)])] (by decide)⟩

lemma pushSeq_cadence (n j0 count : ℕ) :
    (NESAudio.pushSeq ⟨(j0 : ℚ) * bufferDuration n⟩ (cadenceDeliveries n j0 count)).1.scheduledTime
        = ((j0 + count : ℕ) : ℚ) * bufferDuration n ∧
    (∀ r ∈ (NESAudio.pushSeq ⟨(j0 : ℚ) * bufferDuration n⟩ (cadenceDeliveries n j0 count)).2,
        r.underrun = true) ∧
    ((NESAudio.pushSeq ⟨(j0 : ℚ) * bufferDuration n⟩ (cadenceDeliveries n j0 count)).2.map
        fun r => r.startTime)
      = (List.range' j0 count).map (fun (j : ℕ) => (j : ℚ) * bufferDuration n) := by
  induction count generalizing j0 with
  | zero => simp [cadenceDeliveries, NESAudio.pushSeq]
  | succ c ih =>
    have hd : cadenceDeliveries n j0 (c + 1) =
        ((j0 : ℚ) * bufferDuration n, List.replicate n 0) :: cadenceDeliveries n (j0 + 1) c := by
      simp [cadenceDeliveries, List.range'_succ]
    have hpush : NESAudio.push ⟨(j0 : ℚ) * bufferDuration n⟩
          ((j0 : ℚ) * bufferDuration n) (List.replicate n 0) =
        { state := ⟨((j0 + 1 : ℕ) : ℚ) * bufferDuration n⟩
          startTime := (j0 : ℚ) * bufferDuration n
          underrun := true
          bufferData := (List.replicate n 0).map convSample } := by
      rw [push_of_ge _ _ _ (le_refl _)]
      have h2 : (j0 : ℚ) * bufferDuration n + bufferDuration n
          = ((j0 : ℚ) + 1) * bufferDuration n := by ring
      simp [List.length_replicate, h2]
    obtain ⟨ih1, ih2, ih3⟩ := ih (j0 + 1)
    rw [hd]
    simp only [NESAudio.pushSeq, hpush, List.map_cons]
    refine ⟨?_, ?_, ?_⟩
    · rw [ih1]
      push_cast
      ring
    · intro r hr
      rcases List.mem_cons.mp hr with h | h
      · rw [h]
      · exact ih2 r h
    · rw [ih3, List.range'_succ, List.map_cons]

lemma pushSeq_cadence_zero (n count : ℕ) :
    (NESAudio.new.pushSeq (cadenceDeliveries n 0 count)).1.scheduledTime
        = (count : ℚ) * bufferDuration n ∧
    (∀ r ∈ (NESAudio.new.pushSeq (cadenceDeliveries n 0 count)).2, r.underrun = true) ∧
    ((NESAudio.new.pushSeq (cadenceDeliveries n 0 count)).2.map fun r => r.startTime)
      = (List.range' 0 count).map (fun (j : ℕ) => (j : ℚ) * bufferDuration n) := by
  have h0 : (NESAudio.new : NESAudio) = ⟨((0 : ℕ) : ℚ) * bufferDuration n⟩ := by
    simp [NESAudio.new]
  rw [h0]
  have h := pushSeq_cadence n 0 count
  simpa using h

/-- C2 fails on the code: with segments of one sample (duration
`1/11050`) delivered exactly every `1/11050` seconds from a freshly
constructed scheduler, each delivery arrives with `now = scheduledTime`,
which falls into the underrun branch, so an underrun signal is emitted on
every push instead of never. -/
theorem C2_counterexample :
    ¬ ∀ r ∈ (NESAudio.new.pushSeq (cadenceDeliveries 1 0 3)).2,
        r.underrun = false := by
  intro h
  obtain ⟨-, hall, hmap⟩ := pushSeq_cadence_zero 1 3
  have hne : (NESAudio.new.pushSeq (cadenceDeliveries 1 0 3)).2 ≠ [] := by
    intro hnil
    rw [hnil] at hmap
    simp [List.range'] at hmap
  obtain ⟨r, hr⟩ := List.exists_mem_of_ne_nil _ hne
  have := h r hr
  have := hall r hr
  simp_all

/-- C2 amended: under the exact steady cadence (fixed duration `d`,
deliveries every `d` seconds from a fresh scheduler) the scheduled start
times do advance by exactly `d` per call with zero drift (the `k`-th push
starts at `k * d` and the clock ends at `count * d`), but every push takes
the underrun branch and emits the underrun signal, because a delivery at
`now = scheduledTime` falls into the `now >= scheduled` branch. -/
theorem C2_amended (n count : ℕ) (hn : 0 < n) :
    (NESAudio.new.pushSeq (cadenceDeliveries n 0 count)).1.scheduledTime
        = (count : ℚ) * bufferDuration n ∧
    (∀ r ∈ (NESAudio.new.pushSeq (cadenceDeliveries n 0 count)).2, r.underrun = true) ∧
    ((NESAudio.new.pushSeq (cadenceDeliveries n 0 count)).2.map fun r => r.startTime)
      = (List.range' 0 count).map (fun (j : ℕ) => (j : ℚ) * bufferDuration n) :=
  pushSeq_cadence_zero n count

/-- Concrete instantiation of `C2_amended`: two one-sample segments at
exact cadence both signal underrun. -/
theorem C2_amended_witness :
    0 < 1 ∧
    (∀ r ∈ (NESAudio.new.pushSeq (cadenceDeliveries 1 0 2)).2, r.underrun = true) :=
  ⟨by decide, (C2_amended 1 2 (by decide)).2.1⟩

/-- Startup options derived from the page URL (`Options` in
`src/optcarrot.worker.ts`, populated by `deriveOptions` in `src/index.ts`). -/
structure Options where
  opt : Bool
  headless : Bool
  rom : String
deriving DecidableEq

/-- Embedding of `deriveOptions` (`src/index.ts` lines 131-140): each query
parameter is read independently (`searchParams.get` yields the value or
`null`, modelled as `Option String`) and defaulted when absent. -/
def deriveOptions (enableOptRaw headlessRaw romRaw : Option String) : Options :=
  { opt := match enableOptRaw with
      | none => true
      | some v => v == "true"
    headless := match headlessRaw with
      | none => false
      | some v => v == "true"
    rom := match romRaw with
      | none => "Lan_Master.nes"
      | some v => v }

/-- C8: each startup parameter is independently defaulted: `opt` defaults
to `true` and otherwise tests equality with `"true"`, `headless` defaults
to `false` and otherwise tests equality with `"true"`, `rom` defaults to
`"Lan_Master.nes"` and is otherwise passed through; and each field depends
only on its own parameter. -/
theorem C8_deriveOptions_defaults (o h r : Option String) :
    (deriveOptions none h r).opt = true ∧
    (∀ v, (deriveOptions (some v) h r).opt = (v == "true")) ∧
    (deriveOptions o none r).headless = false ∧
    (∀ v, (deriveOptions o (some v) r).headless = (v == "true")) ∧
    (deriveOptions o h none).rom = "Lan_Master.nes" ∧
    (∀ v, (deriveOptions o h (some v)).rom = v) ∧
    (∀ o2 h2 r2, (deriveOptions o h2 r2).opt = (deriveOptions o h r).opt ∧
      (deriveOptions o2 h r2).headless = (deriveOptions o h r).headless ∧
      (deriveOptions o2 h2 r).rom = (deriveOptions o h r).rom) :=
  ⟨rfl, fun _ => rfl, rfl, fun _ => rfl, rfl, fun _ => rfl,
   fun _ _ _ => ⟨rfl, rfl, rfl⟩⟩

/-- Outcome of the page bootstrap branch (`src/index.ts` lines 237-262):
either the page reloads to let the service worker take control, `play` is
invoked (starting a session), a terminal user-visible error is shown via
`progress.error`, or the failure is merely logged to the console. -/
inductive BootAction
  | reloadPage
  | startPlay
  | reportError (msg : String)
  | logOnly
deriving DecidableEq

/-- Hosting environment facts the bootstrap branches on. -/
structure BrowserEnv where
  hasServiceWorker : Bool
  registrationSucceeds : Bool
  activeNotControlling : Bool
  hasSharedArrayBuffer : Bool
deriving DecidableEq

/-- Embedding of the service-worker registration handler
(`src/index.ts` lines 237-262). -/
def bootstrap (env : BrowserEnv) : BootAction :=
  if env.hasServiceWorker then
    if env.registrationSucceeds then
      if env.activeNotControlling then BootAction.reloadPage
      else if env.hasSharedArrayBuffer then BootAction.startPlay
      else BootAction.reportError
        "Your browser does not support SharedArrayBuffer. Please use a modern browser like Chrome or Firefox."
    else BootAction.logOnly
  else BootAction.reportError "No Service Worker support"

/-- C6 fails on the code: when the service-worker registration fails, the
handler only logs to the console (`console.log`), so with
`SharedArrayBuffer` unavailable no user-visible error is reported at all
(though no session starts either). -/
theorem C6_counterexample :
    (BrowserEnv.mk true false false false).hasSharedArrayBuffer = false ∧
    ¬ ∃ m, bootstrap (BrowserEnv.mk true false false false) = BootAction.reportError m := by
  constructor
  · rfl
  · rintro ⟨m, hm⟩
    simp [bootstrap] at hm

/-- C6 amended: whenever `SharedArrayBuffer` is unavailable, no session is
ever started (`play` is never invoked) and there is no degraded fallback;
the terminal user-visible SharedArrayBuffer error is reported on the
normal path (service worker available, registration succeeded, no reload
needed), while the reload path and the registration-failure path surface
no user-visible error. -/
theorem C6_amended (env : BrowserEnv) (h : env.hasSharedArrayBuffer = false) :
    bootstrap env ≠ BootAction.startPlay ∧
    (env.hasServiceWorker = true → env.registrationSucceeds = true →
      env.activeNotControlling = false →
      bootstrap env = BootAction.reportError
        "Your browser does not support SharedArrayBuffer. Please use a modern browser like Chrome or Firefox.") := by
  obtain ⟨sw, reg, act, sab⟩ := env
  simp only at h
  subst h
  cases sw <;> cases reg <;> cases act <;> simp [bootstrap]

/-- Concrete instantiation of `C6_amended` on the normal path without
`SharedArrayBuffer`: no session starts. -/
theorem C6_amended_witness :
    (BrowserEnv.mk true true false false).hasSharedArrayBuffer = false ∧
    bootstrap (BrowserEnv.mk true true false false) ≠ BootAction.startPlay :=
  ⟨rfl, (C6_amended (BrowserEnv.mk true true false false) rfl).1⟩

/-- Tagged progress message (`ProgressInput` in `src/optcarrot.worker.ts`
lines 9-20). -/
inductive ProgressInput
  | progress (value : ℚ)
  | message (value : String)
  | error (message : String)
  | done
deriving DecidableEq

/-- Progress events emitted between the awaited/fallible steps of
`App.init` (`src/optcarrot.worker.ts` lines 123-194), in program order.
Segment 0 precedes the fetch of the binary; segment 1 precedes
instantiation; segments 2, 3, 4 precede WASI/VM initialization, the
optcarrot require, and the NES construction respectively; segment 5
(`progress 1`, `done`) precedes the final `vm.eval("$nes.run")`. -/
def initSegments : List (List ProgressInput) :=
  [ [ProgressInput.message "Downloading...", ProgressInput.progress 0],
    [ProgressInput.progress (1 / 5), ProgressInput.message "Instantiating Optcarrot..."],
    [ProgressInput.progress (3 / 10)],
    [ProgressInput.progress (3 / 5)],
    [ProgressInput.progress (4 / 5)],
    [ProgressInput.progress 1, ProgressInput.done] ]

/-- Error message built by the `Comlink.expose` wrapper
(`src/optcarrot.worker.ts` lines 238-242). -/
def initErrorMessage (m : String) : String := "Failed to initialize Optcarrot: " ++ m

/-- Trace of progress events delivered for one `init` session.  `none`
means every step succeeded (`$nes.run` loops forever); `some (k, m)` means
the first failing step is step `k` (0 = fetch/read of the binary,
1 = instantiate/set instance, 2 = WASI/VM initialization, 3 = the
optcarrot require, 4 = driver setup and NES construction, 5 = the
`$nes.run` call) and it raised/rejected with message `m`.  The rejection
of the async `init` is reported once by the `.catch` handler in the
`Comlink.expose` wrapper as a single `error` event. -/
def initTrace : Option (Fin 6 × String) → List ProgressInput
  | none => initSegments.flatten
  | some (k, m) => (initSegments.take (k.val + 1)).flatten ++
      [ProgressInput.error (initErrorMessage m)]

/-- Whether `vm.eval("$nes.run")` — the start of the emulator tick loop —
was reached in the session: it is reached unless an earlier step failed. -/
def runInvoked : Option (Fin 6 × String) → Bool
  | none => true
  | some (k, _) => decide (k.val = 5)

/-- Test for the terminal event kinds of the progress protocol. -/
def isTerminal : ProgressInput → Bool
  | ProgressInput.done => true
  | ProgressInput.error _ => true
  | _ => false

/-- Test for `error` events. -/
def isErrorEvent : ProgressInput → Bool
  | ProgressInput.error _ => true
  | _ => false

/-- Events delivered strictly after the first terminal (`done`/`error`)
event of a trace. -/
def afterFirstTerminal (t : List ProgressInput) : List ProgressInput :=
  (t.dropWhile (fun e => not (isTerminal e))).drop 1

lemma initTrace_fail (k : Fin 6) (hk : k.val < 5) (m : String) :
    (initTrace (some (k, m))).filter isErrorEvent
        = [ProgressInput.error (initErrorMessage m)] ∧
    (initTrace (some (k, m))).getLast?
        = some (ProgressInput.error (initErrorMessage m)) ∧
    ProgressInput.done ∉ initTrace (some (k, m)) := by
  fin_cases k <;>
    simp_all [initTrace, initSegments, isErrorEvent, List.filter, List.getLast?]

/-- C3 fails on the code: when every startup step succeeds but the
`vm.eval("$nes.run")` call itself throws, the async `init` promise rejects
after `done` was already delivered, and the `.catch` handler in the
`Comlink.expose` wrapper then delivers an `error` event — so the session
trace contains both a `done` and a subsequent `error`. -/
theorem C3_counterexample :
    ¬ (((initTrace (some ((5 : Fin 6), "RuntimeError"))).filter isTerminal).length ≤ 1) := by
  decide

/-- C3 amended: every session trace contains at most one `error` and at
most one `done`; after an `error` nothing is delivered, and after `done`
either nothing is delivered or exactly one trailing `error` (the case in
which the emulator run loop itself throws after successful startup). -/
theorem C3_amended (o : Option (Fin 6 × String)) :
    ((initTrace o).filter isErrorEvent).length ≤ 1 ∧
    ((initTrace o).count ProgressInput.done) ≤ 1 ∧
    (afterFirstTerminal (initTrace o) = [] ∨
      ∃ m, afterFirstTerminal (initTrace o) = [ProgressInput.error m]) := by
  match o with
  | none => exact ⟨by decide, by decide, Or.inl (by decide)⟩
  | some (k, m) =>
    fin_cases k <;>
      simp [initTrace, initSegments, isErrorEvent, isTerminal, afterFirstTerminal,
        List.count_cons, List.filter, List.dropWhile]

/-- C5: when a startup step (fetch, instantiation, or one of the
initialization evals) fails, the failure is reported exactly once, as a
terminal `error` event carrying the wrapper's human-readable message, no
`done` is delivered, and the `$nes.run` tick loop is never started. -/
theorem C5_startup_failure (k : Fin 6) (hk : k.val < 5) (m : String) :
    (initTrace (some (k, m))).filter isErrorEvent
        = [ProgressInput.error (initErrorMessage m)] ∧
    (initTrace (some (k, m))).getLast?
        = some (ProgressInput.error (initErrorMessage m)) ∧
    ProgressInput.done ∉ initTrace (some (k, m)) ∧
    runInvoked (some (k, m)) = false := by
  obtain ⟨h1, h2, h3⟩ := initTrace_fail k hk m
  refine ⟨h1, h2, h3, ?_⟩
  simp only [runInvoked, decide_eq_false_iff_not]
  omega

/-- Concrete instantiation of `C5_startup_failure` at a failing binary
fetch. -/
theorem C5_startup_failure_witness :
    ((0 : Fin 6) : ℕ) < 5 ∧ runInvoked (some ((0 : Fin 6), "fetch failed")) = false :=
  ⟨by decide, (C5_startup_failure (0 : Fin 6) (by decide) "fetch failed").2.2.2⟩

/-- Extractor for the value of a `progress` event. -/
def progressValue : ProgressInput → Option ℚ
  | ProgressInput.progress v => some v
  | _ => none

/-- C7 fails on the code: the successful startup trace is not of the shape
"downloading notification, progress(0), increasing progress events, done",
because a second `message` event (`"Instantiating Optcarrot..."`) is
delivered between `progress 0.2` and `progress 0.3`. -/
theorem C7_counterexample :
    ¬ ∃ (dl : String) (ps : List ℚ),
        initTrace none =
          ProgressInput.message dl :: ProgressInput.progress 0 ::
            (ps.map ProgressInput.progress ++ [ProgressInput.done]) := by
  rintro ⟨dl, ps, h⟩
  rw [show initTrace none =
      [ProgressInput.message "Downloading...", ProgressInput.progress 0,
       ProgressInput.progress (1 / 5), ProgressInput.message "Instantiating Optcarrot...",
       ProgressInput.progress (3 / 10), ProgressInput.progress (3 / 5),
       ProgressInput.progress (4 / 5), ProgressInput.progress 1, ProgressInput.done]
    from rfl] at h
  match ps with
  | [] => simp at h
  | [a] => simp at h
  | a :: b :: ps2 => simp at h

/-- C7 amended: the successful startup trace is exactly the downloading
message, `progress 0`, the strictly increasing progress values
`0.2, 0.3, 0.6, 0.8, 1` with one further status message (instantiating)
interleaved after `0.2`, then a single terminal `done`; a startup that
fails during the startup phase terminates in exactly one `error`. -/
theorem C7_amended :
    initTrace none =
      [ProgressInput.message "Downloading...", ProgressInput.progress 0,
       ProgressInput.progress (1 / 5), ProgressInput.message "Instantiating Optcarrot...",
       ProgressInput.progress (3 / 10), ProgressInput.progress (3 / 5),
       ProgressInput.progress (4 / 5), ProgressInput.progress 1, ProgressInput.done] ∧
    (initTrace none).filterMap progressValue = [0, 1 / 5, 3 / 10, 3 / 5, 4 / 5, 1] ∧
    List.Chain' (· < ·) ((initTrace none).filterMap progressValue) ∧
    ((initTrace none).filterMap progressValue).getLast? = some 1 ∧
    (initTrace none).getLast? = some ProgressInput.done ∧
    (∀ (k : Fin 6), k.val < 5 → ∀ m,
      (initTrace (some (k, m))).filter isErrorEvent
        = [ProgressInput.error (initErrorMessage m)] ∧
      (initTrace (some (k, m))).getLast?
        = some (ProgressInput.error (initErrorMessage m))) := by
  refine ⟨rfl, rfl, ?_, rfl, rfl, ?_⟩
  · rw [show (initTrace none).filterMap progressValue
        = [0, 1 / 5, 3 / 10, 3 / 5, 4 / 5, 1] from rfl]
    norm_num [List.chain'_cons]
  · intro k hk m
    obtain ⟨h1, h2, -⟩ := initTrace_fail k hk m
    exact ⟨h1, h2⟩

/-- Concrete instantiation of the failing-startup part of `C7_amended`. -/
theorem C7_amended_witness :
    ((0 : Fin 6) : ℕ) < 5 ∧
    (initTrace (some ((0 : Fin 6), "fetch failed"))).getLast?
      = some (ProgressInput.error (initErrorMessage "fetch failed")) :=
  ⟨by decide, (C7_amended.2.2.2.2.2 (0 : Fin 6) (by decide) "fetch failed").2⟩

/-- Discrete input event carried by the key-event channel
(spec section 3: `{ code: small unsigned integer, pressed: boolean }`). -/
structure InputEvent where
  code : ℕ
  pressed : Bool
deriving DecidableEq

/-- Modelled from the spec: the wire encoding used by `KeyEventProducer`
(`src/key-event-bus.ts`, not present under `src/`): each queued item is a
fixed-width record of `(code: 1 byte, pressed: 1 byte)` (spec section 6). -/
def encodeEvent (e : InputEvent) : List ℕ :=
  [e.code % 256, if e.pressed then 1 else 0]

/-- Modelled from the spec: the decoding used by `KeyEventConsumer`:
the first byte is the button code, the second byte is nonzero iff the key
was pressed. -/
def decodeEvent (b0 b1 : ℕ) : InputEvent := ⟨b0, b1 != 0⟩

/-- Modelled from the spec: the shared event channel (spec sections 3 and
4.1): a capacity-bounded FIFO of raw bytes backed by shared memory, with
one producer and one consumer; capacity is fixed at construction. -/
structure EventChannel where
  capacity : ℕ
  bytes : List ℕ
deriving DecidableEq

/-- Channel freshly allocated at session start: empty, fixed capacity
(implementation default 1024 bytes of backing store). -/
def EventChannel.fresh (cap : ℕ) : EventChannel := ⟨cap, []⟩

/-- Modelled from the spec: `tryPush` (spec section 4.1) — non-blocking;
appends the 2-byte record when it fits, otherwise drops the event and
returns `false`. -/
def EventChannel.tryPush (ch : EventChannel) (e : InputEvent) : EventChannel × Bool :=
  if ch.bytes.length + 2 ≤ ch.capacity then
    ({ ch with bytes := ch.bytes ++ encodeEvent e }, true)
  else (ch, false)

/-- Modelled from the spec: `tryPop` (spec section 4.1) — non-blocking;
removes and decodes the oldest 2-byte record, or returns no event. -/
def EventChannel.tryPop (ch : EventChannel) : EventChannel × Option InputEvent :=
  match ch.bytes with
  | b0 :: b1 :: rest => ({ ch with bytes := rest }, some (decodeEvent b0 b1))
  | _ => (ch, none)

/-- Decoding of a whole byte queue into its sequence of records. -/
def decodeBytes : List ℕ → List InputEvent
  | [] => []
  | [_] => []
  | b0 :: b1 :: rest => decodeEvent b0 b1 :: decodeBytes rest

/-- One channel operation of the single producer or single consumer. -/
inductive ChanOp
  | push (e : InputEvent)
  | pop
deriving DecidableEq

/-- Running a sequence of operations against the channel, collecting the
result of every pop. -/
def runOps (ch : EventChannel) : List ChanOp → EventChannel × List (Option InputEvent)
  | [] => (ch, [])
  | ChanOp.push e :: rest => runOps (ch.tryPush e).1 rest
  | ChanOp.pop :: rest =>
    let s := ch.tryPop
    let t := runOps s.1 rest
    (t.1, s.2 :: t.2)

/-- Events pushed by a sequence of operations, in push order. -/
def pushedEvents : List ChanOp → List InputEvent
  | [] => []
  | ChanOp.push e :: rest => e :: pushedEvents rest
  | ChanOp.pop :: rest => pushedEvents rest

/-- Whether every push in the run succeeds (capacity never exceeded). -/
def noOverflow (ch : EventChannel) : List ChanOp → Bool
  | [] => true
  | ChanOp.push e :: rest => (ch.tryPush e).2 && noOverflow (ch.tryPush e).1 rest
  | ChanOp.pop :: rest => noOverflow ch.tryPop.1 rest

/-- String rendering of a consumed event, as produced by
`event.join(",")` in `App.fetchKeyEvent`. -/
def eventToString (e : InputEvent) : String :=
  toString e.code ++ "," ++ (if e.pressed then "true" else "false")

/-- Embedding of `App.fetchKeyEvent` (`src/optcarrot.worker.ts` lines
219-223): consume one event; the empty string means no pending event. -/
def fetchKeyEvent (ch : EventChannel) : EventChannel × String :=
  match ch.tryPop with
  | (ch2, none) => (ch2, "")
  | (ch2, some e) => (ch2, eventToString e)

lemma decode_encode (e : InputEvent) (hcode : e.code < 256) :
    decodeBytes (encodeEvent e) = [e] := by
  obtain ⟨c, p⟩ := e
  simp only [encodeEvent, decodeBytes, decodeEvent]
  cases p <;> simp [Nat.mod_eq_of_lt hcode]

lemma decodeBytes_append (l : List ℕ) (e : InputEvent)
    (heven : l.length % 2 = 0) (hcode : e.code < 256) :
    decodeBytes (l ++ encodeEvent e) = decodeBytes l ++ [e] := by
  induction l using decodeBytes.induct with
  | case1 => simpa using decode_encode e hcode
  | case2 b => simp at heven
  | case3 b0 b1 rest ih =>
    simp only [List.length_cons] at heven
    simp only [List.cons_append, decodeBytes, List.append_eq]
    rw [ih (by omega)]

lemma tryPush_success (ch : EventChannel) (e : InputEvent)
    (h : (ch.tryPush e).2 = true) :
    (ch.tryPush e).1.bytes = ch.bytes ++ encodeEvent e ∧
    (ch.tryPush e).1.capacity = ch.capacity := by
  unfold EventChannel.tryPush at h ⊢
  split_ifs at h ⊢
  exact ⟨rfl, rfl⟩

lemma encodeEvent_length (e : InputEvent) : (encodeEvent e).length = 2 := by
  simp [encodeEvent]

lemma runOps_fifo (ops : List ChanOp) : ∀ ch : EventChannel,
    noOverflow ch ops = true →
    (∀ e ∈ pushedEvents ops, e.code < 256) →
    ch.bytes.length % 2 = 0 →
    ((runOps ch ops).2.filterMap id) ++ decodeBytes (runOps ch ops).1.bytes
      = decodeBytes ch.bytes ++ pushedEvents ops := by
  induction ops with
  | nil =>
    intro ch _ _ _
    simp [runOps, pushedEvents]
  | cons op rest ih =>
    intro ch hov hcodes heven
    cases op with
    | push e =>
      simp only [noOverflow, Bool.and_eq_true] at hov
      obtain ⟨hpush, hov2⟩ := hov
      obtain ⟨hbytes, -⟩ := tryPush_success ch e hpush
      have hcode : e.code < 256 := hcodes e (by simp [pushedEvents])
      have hcodes2 : ∀ x ∈ pushedEvents rest, x.code < 256 := fun x hx =>
        hcodes x (by simp only [pushedEvents]; exact List.mem_cons_of_mem _ hx)
      have heven2 : (ch.tryPush e).1.bytes.length % 2 = 0 := by
        rw [hbytes, List.length_append, encodeEvent_length]
        omega
      have ihh := ih (ch.tryPush e).1 hov2 hcodes2 heven2
      simp only [runOps]
      rw [ihh, hbytes, decodeBytes_append ch.bytes e heven hcode]
      simp [pushedEvents]
    | pop =>
      simp only [noOverflow] at hov
      have hcodes2 : ∀ x ∈ pushedEvents rest, x.code < 256 := fun x hx =>
        hcodes x (by simpa [pushedEvents] using hx)
      match hb : ch.bytes with
      | [] =>
        have hp : ch.tryPop = (ch, none) := by
          unfold EventChannel.tryPop
          rw [hb]
        have ihh := ih ch (by rwa [hp] at hov) hcodes2 heven
        simp only [runOps, hp]
        simpa [hb, pushedEvents] using ihh
      | [b] =>
        rw [hb] at heven
        simp at heven
      | b0 :: b1 :: r =>
        have hp : ch.tryPop = ({ ch with bytes := r }, some (decodeEvent b0 b1)) := by
          unfold EventChannel.tryPop
          rw [hb]
        have heven2 : ({ ch with bytes := r } : EventChannel).bytes.length % 2 = 0 := by
          rw [hb] at heven
          simp only [List.length_cons] at heven
          simpa using by omega
        have ihh := ih { ch with bytes := r } (by rwa [hp] at hov) hcodes2 heven2
        simp only [runOps, hp]
        rw [List.filterMap_cons]
        simp only [id]
        rw [List.cons_append, ihh]
        simp [decodeBytes, pushedEvents]

/-- Operation sequence of the end-to-end scenario: press then release of
button 0, pushed before any pop, followed by three pops. -/
def scenarioOps : List ChanOp :=
  [ChanOp.push ⟨0, true⟩, ChanOp.push ⟨0, false⟩, ChanOp.pop, ChanOp.pop, ChanOp.pop]

/-- Channel state after the two scenario pushes on a fresh 1024-byte
channel. -/
def scenarioChannel : EventChannel :=
  (((EventChannel.fresh 1024).tryPush ⟨0, true⟩).1.tryPush ⟨0, false⟩).1

/-- Three successive consumer polls through `fetchKeyEvent`. -/
def fetchThree (ch : EventChannel) : String × String × String :=
  let a := fetchKeyEvent ch
  let b := fetchKeyEvent a.1
  let c := fetchKeyEvent b.1
  (a.2, b.2, c.2)

/-- C4: the event channel is FIFO and lossless up to capacity — for any
operation sequence in which no push overflows and every code fits one
byte, the successful pops followed by the events still queued are exactly
the pushed events in push order; and in the concrete scenario, pushing
the press then the release of button 0 before any pop yields pops of the
press, then the release, then no event, with `fetchKeyEvent` rendering
them as `"0,true"`, `"0,false"`, and the empty string. -/
theorem C4_channel_fifo (cap : ℕ) (ops : List ChanOp)
    (hov : noOverflow (EventChannel.fresh cap) ops = true)
    (hcodes : ∀ e ∈ pushedEvents ops, e.code < 256) :
    (((runOps (EventChannel.fresh cap) ops).2.filterMap id) ++
        decodeBytes (runOps (EventChannel.fresh cap) ops).1.bytes
      = pushedEvents ops) ∧
    (runOps (EventChannel.fresh 1024) scenarioOps).2
      = [some ⟨0, true⟩, some ⟨0, false⟩, none] ∧
    fetchThree scenarioChannel = ("0,true", "0,false", "") := by
  refine ⟨?_, by decide, by rfl⟩
  have h := runOps_fifo ops (EventChannel.fresh cap) hov hcodes rfl
  simpa [EventChannel.fresh, decodeBytes] using h

/-- Concrete instantiation of `C4_channel_fifo` on the end-to-end
scenario sequence itself. -/
theorem C4_channel_fifo_witness :
    noOverflow (EventChannel.fresh 1024) scenarioOps = true ∧
    (∀ e ∈ pushedEvents scenarioOps, e.code < 256) ∧
    (((runOps (EventChannel.fresh 1024) scenarioOps).2.filterMap id) ++
        decodeBytes (runOps (EventChannel.fresh 1024) scenarioOps).1.bytes
      = pushedEvents scenarioOps) :=
  ⟨by decide, by decide, (C4_channel_fifo 1024 scenarioOps (by decide) (by decide)).1⟩
